import Mathlib

/-!
Verification of the lunch-menu fetcher (`fetch-lunch-menu.ts`).

The script is a sequential fetch-parse-transform pipeline.  The pure logic —
ISO week computation, the weekday table, CLI override parsing, the two
regex-based text strippers, and the PDF-link resolution heuristic
`findMenuPdfUrl` — is embedded below as executable Lean definitions.

Modelling conventions:
* JavaScript strings are modelled as `String`/`List Char`; positions are
  character indices.  `toLowerCase` is modelled as ASCII lowering (all names
  and patterns compared by the script are ASCII, so this agrees with the
  JavaScript behaviour on every comparison the script performs).
* The specific regular expressions of the script are compiled by hand into
  deterministic matchers.  Each pattern in the script has the property that
  adjacent sub-patterns match disjoint character classes, so greedy matching
  without backtracking is exact.
* `Date` is modelled as a civil date.  A date is represented by the triple
  (year, month, day) or by its day number (days since 1970-01-01), with the
  standard proleptic-Gregorian conversion.  Time-of-day and daylight-saving
  offsets are not modelled: the model corresponds to a fixed-offset (UTC)
  environment, where `valueOf` differences between two dates holding the same
  time of day are exact multiples of 86400000 ms per day of difference.
* HTML parsing (cheerio) is external to the repository.  `findMenuPdfUrl` is
  embedded as a function of the parsed data it actually consumes: the
  serialized body markup and the list of anchors matched by the selector,
  each anchor carrying its `href`, its visible text and its serialized
  (outer) markup.
* Fallible paths of `main` are modelled with `Except String`, carrying the
  thrown error messages.
-/

/-! ## JavaScript string primitives -/

/-- ASCII lowering of one character, modelling `String.prototype.toLowerCase`
on the characters the script compares (day names, markup, URL patterns are
ASCII; non-ASCII characters such as 'ø' are already lowercase). -/
def jsLowerChar (c : Char) : Char :=
  if 'A' ≤ c ∧ c ≤ 'Z' then Char.ofNat (c.toNat + 32) else c

def lowerList (l : List Char) : List Char := l.map jsLowerChar

def jsLower (s : String) : String := String.mk (lowerList s.toList)

/-- Whitespace class of JavaScript regular expressions (`\s`) and of
`String.prototype.trim`: ASCII whitespace plus the common Unicode space
characters. -/
def jsIsWs (c : Char) : Bool :=
  c = ' ' ∨ c = '\t' ∨ c = '\n' ∨ c = '\r' ∨ c = '\x0b' ∨ c = '\x0c' ∨
  c.toNat = 0xa0 ∨ c.toNat = 0x1680 ∨ (0x2000 ≤ c.toNat ∧ c.toNat ≤ 0x200a) ∨
  c.toNat = 0x2028 ∨ c.toNat = 0x2029 ∨ c.toNat = 0x202f ∨ c.toNat = 0x205f ∨
  c.toNat = 0x3000 ∨ c.toNat = 0xfeff

/-- Does `l` start with `pat`? -/
def beginsWith : List Char → List Char → Bool
  | _, [] => true
  | [], _ :: _ => false
  | c :: cs, d :: ds => c = d && beginsWith cs ds

/-- First index (from `i`) at which `needle` occurs in `hay`, modelling
`String.prototype.indexOf` (`none` for -1). -/
def findSubAux (needle : List Char) : List Char → Nat → Option Nat
  | [], i => if beginsWith [] needle then some i else none
  | hay@(_ :: t), i =>
    if beginsWith hay needle then some i else findSubAux needle t (i + 1)

def jsIndexOfStr (hay needle : String) : Option Nat :=
  findSubAux needle.toList hay.toList 0

/-- Substring test, modelling `String.prototype.includes`. -/
def hasSub (hay needle : String) : Bool :=
  (jsIndexOfStr hay needle).isSome

/-- Suffix test, modelling the cheerio attribute-suffix selector and
`String.prototype.endsWith`. -/
def endsWithStr (s suf : String) : Bool :=
  beginsWith s.toList.reverse suf.toList.reverse

/-- Numeric value of a digit string (the argument of `parseInt` after the
regex guarantees it consists of decimal digits). -/
def digitsVal (l : List Char) : Nat :=
  l.foldl (fun acc c => acc * 10 + (c.toNat - '0'.toNat)) 0

/-- Leading digit run and its value; `none` when there is no leading digit.
This is the core of `parseInt(·, 10)`: the maximal leading run of decimal
digits is converted, everything after it is ignored. -/
def parseDigits (l : List Char) : Option Nat :=
  let ds := l.takeWhile Char.isDigit
  if ds.isEmpty then none else some (digitsVal ds)

/-- Model of JavaScript `parseInt(s, 10)`: skip leading whitespace, accept an
optional sign, then convert the maximal leading digit run; `none` models
`NaN`. -/
def jsParseInt (s : String) : Option Int :=
  match s.toList.dropWhile jsIsWs with
  | '-' :: t => (parseDigits t).map (fun n => -(n : Int))
  | '+' :: t => (parseDigits t).map (fun n => (n : Int))
  | t => (parseDigits t).map (fun n => (n : Int))

/-- Model of `String.prototype.trim`. -/
def jsTrim (s : String) : String :=
  String.mk (((s.toList.dropWhile jsIsWs).reverse.dropWhile jsIsWs).reverse)

/-! ## Civil-date model of `Date` -/

/-- Day number (days since 1970-01-01) of the civil date `(y, m, d)` in the
proleptic Gregorian calendar; `m` and `d` need not be in range, out-of-range
values extend linearly exactly as JavaScript `Date` field normalization
does. -/
def daysFromCivil (y m d : Int) : Int :=
  let y2 := if m ≤ 2 then y - 1 else y
  let mp := m + (if m > 2 then -3 else 9)
  365 * y2 + y2 / 4 - y2 / 100 + y2 / 400 + (153 * mp + 2) / 5 + d - 1 - 719468

/-- Day number of January 1 of year `y`. -/
def jan1 (y : Int) : Int := daysFromCivil y 1 1

/-- Year containing day number `z` (the `getFullYear` of that day):
a linear estimate followed by boundary corrections. -/
def yearOfDay (z : Int) : Int :=
  let y0 := (400 * (z + 719468)) / 146097 + 1
  if z < jan1 y0 then y0 - 1 else if jan1 (y0 + 1) ≤ z then y0 + 1 else y0

/-- Day of week of day number `z`, modelling `Date.prototype.getDay`
(0 = Sunday … 6 = Saturday; day 0, 1970-01-01, was a Thursday). -/
def jsGetDay (z : Int) : Int := (z + 4) % 7

/-- Ceiling division by a positive divisor, modelling
`Math.ceil(a / b)` on integer operands. -/
def ceilDiv (a b : Int) : Int := -((-a) / b)

/-- Embedding of `getWeekNumber` (fetch-lunch-menu.ts, lines 38-48), on the
civil date `(y, m, d)` held by the input `Date`:

    const target = new Date(date.valueOf());
    const dayNumber = (date.getDay() + 6) % 7;
    target.setDate(target.getDate() - dayNumber + 3);
    const firstThursday = target.valueOf();
    target.setMonth(0, 1);
    if (target.getDay() !== 4) {
        target.setMonth(0, 1 + ((4 - target.getDay() + 7) % 7));
    }
    return 1 + Math.ceil((firstThursday - target.valueOf()) / 604800000);

`setDate` rewrites the day-of-month field, `setMonth(0, n)` moves the date to
January `n` of its current year, and `valueOf` differences are day
differences times 86400000 ms. -/
def getWeekNumber (y m d : Int) : Int :=
  let z := daysFromCivil y m d
  let dayNumber := (jsGetDay z + 6) % 7
  let t1 := daysFromCivil y m (d - dayNumber + 3)
  let firstThursday := t1
  let t2 := daysFromCivil (yearOfDay t1) 1 1
  let t3 := if jsGetDay t2 ≠ 4
    then daysFromCivil (yearOfDay t2) 1 (1 + ((4 - jsGetDay t2 + 7) % 7))
    else t2
  1 + ceilDiv ((firstThursday - t3) * 86400000) 604800000

/-- Modelled from the spec: the Thursday of the ISO week of a date (shift to
the Monday of the week, then +3 days). -/
def isoThursday (y m d : Int) : Int :=
  let z := daysFromCivil y m d
  z - ((jsGetDay z + 6) % 7) + 3

/-- Modelled from the spec: the first Thursday of year `yr`. -/
def firstThursdayOfYear (yr : Int) : Int :=
  jan1 yr + ((4 - jsGetDay (jan1 yr)) % 7)

/-- Modelled from the spec: `1 + floor((targetThursday − yearFirstThursday) /
7 days)`, with the difference taken in milliseconds. -/
def isoWeekFormula (y m d : Int) : Int :=
  let thu := isoThursday y m d
  1 + ((thu - firstThursdayOfYear (yearOfDay thu)) * 86400000) / 604800000

/-! ## Weekday table and day lookup -/

/-- One entry of the fixed weekday table (`WEEKDAYS`). -/
structure Weekday where
  danish : String
  english : String
deriving DecidableEq, Repr

/-- Embedding of the `WEEKDAYS` table (lines 50-56). -/
def WEEKDAYS : List Weekday :=
  [⟨"mandag", "monday"⟩, ⟨"tirsdag", "tuesday"⟩, ⟨"onsdag", "wednesday"⟩,
   ⟨"torsdag", "thursday"⟩, ⟨"fredag", "friday"⟩]

/-- Embedding of `getDayByName` (lines 80-85). -/
def getDayByName (name : String) : Option Weekday :=
  let lowerName := jsLower name
  WEEKDAYS.find? (fun day => day.danish == lowerName || day.english == lowerName)

/-- Embedding of `getCurrentDay` (lines 62-73); `dayIndex` is today's
`getDay()` value, which is always in 0..6. -/
def getCurrentDay (dayIndex : Fin 7) : Except String Weekday :=
  if _h : dayIndex.val = 0 ∨ dayIndex.val = 6 then
    .error "No menu available on weekends"
  else
    .ok (WEEKDAYS.get ⟨dayIndex.val - 1,
      by have h5 : WEEKDAYS.length = 5 := rfl; have h7 := dayIndex.isLt; omega⟩)

/-- The valid-day list interpolated into the invalid-day error of `main`
(line 321). -/
def validDaysStr : String :=
  String.intercalate ", " (WEEKDAYS.map (fun d => d.danish ++ "/" ++ d.english))

/-- Embedding of the `--day` handling of `main` (lines 317-327): a present,
non-empty (JavaScript-truthy) override is looked up with `getDayByName`,
otherwise `getCurrentDay` supplies the default. -/
def resolveDay (dayArg : Option String) (dayIndex : Fin 7) : Except String Weekday :=
  match dayArg with
  | none => getCurrentDay dayIndex
  | some s =>
    if s = "" then getCurrentDay dayIndex
    else
      match getDayByName s with
      | some day => .ok day
      | none => .error ("Invalid day: " ++ s ++ ". Valid days: " ++ validDaysStr)

/-- Embedding of the `--week` handling of `main` (lines 307-314): a present,
non-empty (JavaScript-truthy) override is parsed with `parseInt` and must lie
in [1, 53]; otherwise the current week `cur` stands. -/
def resolveWeek (weekArg : Option String) (cur : Int) : Except String Int :=
  match weekArg with
  | none => .ok cur
  | some s =>
    if s = "" then .ok cur
    else
      match jsParseInt s with
      | none => .error ("Invalid week number: " ++ s ++ ". Must be between 1 and 53.")
      | some n =>
        if n < 1 ∨ n > 53 then
          .error ("Invalid week number: " ++ s ++ ". Must be between 1 and 53.")
        else .ok n

/-! ## CLI argument lookup -/

/-- First index of `x` in `l`, modelling `Array.prototype.indexOf`
(`none` for -1). -/
def jsIndexOfList : List String → String → Option Nat
  | [], _ => none
  | a :: t, x => if a = x then some 0 else (jsIndexOfList t x).map (fun n => n + 1)

/-- Embedding of `getArgValue` (lines 267-275): for each flag in order, if the
flag occurs and is followed by at least one more argument, return that
argument; otherwise try the next flag; `none` models `null`. -/
def getArgValue (args : List String) : List String → Option String
  | [] => none
  | flag :: rest =>
    match jsIndexOfList args flag with
    | some index =>
      if h : index + 1 < args.length then some (args.get ⟨index + 1, h⟩)
      else getArgValue args rest
    | none => getArgValue args rest

/-! ## Text strippers -/

/-- Matcher for the page-number regex `/--\s*\d+\s+of\s+\d+\s*--/` at the head
of the input; returns the length of the match.  Adjacent sub-patterns draw
from disjoint character classes, so the greedy match is the regex match. -/
def matchPageNum (l : List Char) : Option Nat :=
  match l with
  | '-' :: '-' :: r1 =>
    let ws1 := r1.takeWhile jsIsWs
    let r2 := r1.dropWhile jsIsWs
    let d1 := r2.takeWhile Char.isDigit
    if d1.isEmpty then none
    else
      let r3 := r2.dropWhile Char.isDigit
      let ws2 := r3.takeWhile jsIsWs
      if ws2.isEmpty then none
      else
        match r3.dropWhile jsIsWs with
        | 'o' :: 'f' :: r5 =>
          let ws3 := r5.takeWhile jsIsWs
          if ws3.isEmpty then none
          else
            let r6 := r5.dropWhile jsIsWs
            let d2 := r6.takeWhile Char.isDigit
            if d2.isEmpty then none
            else
              let r7 := r6.dropWhile Char.isDigit
              let ws4 := r7.takeWhile jsIsWs
              match r7.dropWhile jsIsWs with
              | '-' :: '-' :: _ =>
                some (2 + ws1.length + d1.length + ws2.length + 2 +
                      ws3.length + d2.length + ws4.length + 2)
              | _ => none
        | _ => none
  | _ => none

/-- Character class `[0-9,TKMN\s]` of the allergen regex (case-sensitive:
the regex has no `i` flag). -/
def allergyClassChar (c : Char) : Bool :=
  Char.isDigit c || c = ',' || c = 'T' || c = 'K' || c = 'M' || c = 'N' || jsIsWs c

/-- Matcher for the allergen regex `/\s*\([0-9,TKMN\s]+\)/` at the head of the
input; returns the length of the match. -/
def matchAllergy (l : List Char) : Option Nat :=
  let ws := l.takeWhile jsIsWs
  match l.dropWhile jsIsWs with
  | '(' :: r2 =>
    let body := r2.takeWhile allergyClassChar
    if body.isEmpty then none
    else
      match r2.dropWhile allergyClassChar with
      | ')' :: _ => some (ws.length + 1 + body.length + 1)
      | _ => none
  | _ => none

/-- Global regex replacement with the empty string (`String.prototype.replace`
with a `g` regex): scan left to right, delete each leftmost match and resume
after it.  Structurally recursive on a fuel argument so that it reduces in the
kernel; every matcher below consumes at least one character, so fuel equal to
the input length (as supplied by `stripMatches`) never runs out. -/
def stripMatchesFuel (matcher : List Char → Option Nat) : Nat → List Char → List Char
  | 0, _ => []
  | _, [] => []
  | fuel + 1, c :: t =>
    match matcher (c :: t) with
    | some len => stripMatchesFuel matcher fuel (t.drop (len - 1))
    | none => c :: stripMatchesFuel matcher fuel t

def stripMatches (matcher : List Char → Option Nat) (l : List Char) : List Char :=
  stripMatchesFuel matcher l.length l

/-- Embedding of `removePageNumbers` (lines 166-169):
`text.replace(/--\s*\d+\s+of\s+\d+\s*--/g, '').trim()`. -/
def removePageNumbers (text : String) : String :=
  jsTrim (String.mk (stripMatches matchPageNum text.toList))

/-- Embedding of `removeAllergyInfo` (lines 156-159):
`text.replace(/\s*\([0-9,TKMN\s]+\)/g, '')`. -/
def removeAllergyInfo (text : String) : String :=
  String.mk (stripMatches matchAllergy text.toList)

/-- Embedding of the text-normalization steps of `main` (lines 362-368):
page numbers are always stripped, allergen markers only when the
no-allergies option was requested. -/
def normalizeMenuText (raw : String) (noAllergies : Bool) : String :=
  let t := removePageNumbers raw
  if noAllergies then removeAllergyInfo t else t

/-! ## Link resolver (`findMenuPdfUrl`) -/

/-- One anchor element produced by the cheerio selector pass: its `href`
attribute, its visible text and its serialized (outer) markup. -/
structure Anchor where
  href : String
  text : String
  outer : String
deriving DecidableEq, Repr

/-- One provisional PDF link with the week number inferred for it
(`null` week modelled as `none`). -/
structure Candidate where
  href : String
  weekNum : Option Int
deriving DecidableEq, Repr

/-- Tail of the URL week-marker regex `/(uge|week|w)[_\-\s]?(\d+)/i` after
the token: optional separator, then the mandatory digit group (whose value is
returned). -/
def sepDigits : List Char → Option Nat
  | [] => none
  | c :: t =>
    if c = '_' ∨ c = '-' ∨ jsIsWs c then parseDigits t
    else parseDigits (c :: t)

/-- Match of `/(uge|week|w)[_\-\s]?(\d+)/i` anchored at the head of the
(lowered) input, trying the alternatives in regex order. -/
def urlWeekAt (l : List Char) : Option Nat :=
  match (if beginsWith l ['u', 'g', 'e'] then sepDigits (l.drop 3) else none) with
  | some n => some n
  | none =>
    match (if beginsWith l ['w', 'e', 'e', 'k'] then sepDigits (l.drop 4) else none) with
    | some n => some n
    | none => if beginsWith l ['w'] then sepDigits (l.drop 1) else none

/-- Leftmost match of the URL week-marker pattern. -/
def urlWeekScan : List Char → Option Nat
  | [] => none
  | l@(_ :: t) =>
    match urlWeekAt l with
    | some n => some n
    | none => urlWeekScan t

/-- `href.match(/(uge|week|w)[_\-\s]?(\d+)/i)`, returning the numeric value of
the digit group of the first match (line 216). -/
def urlWeekMatch (href : String) : Option Nat :=
  urlWeekScan (lowerList href.toList)

/-- Tail of the heading pattern `uge\s+(\d+)` / `week\s+(\d+)` after the
token: mandatory whitespace then the digit group; returns the group value and
the number of characters consumed. -/
def wsDigits (l : List Char) : Option (Nat × Nat) :=
  let ws := l.takeWhile jsIsWs
  if ws.isEmpty then none
  else
    let r := l.dropWhile jsIsWs
    let ds := r.takeWhile Char.isDigit
    if ds.isEmpty then none else some (digitsVal ds, ws.length + ds.length)

/-- Match of `/uge\s+(\d+)|week\s+(\d+)/i` anchored at the head of the
(lowered) input; returns the group value and the match length. -/
def hdAt (l : List Char) : Option (Nat × Nat) :=
  match (if beginsWith l ['u', 'g', 'e']
         then (wsDigits (l.drop 3)).map (fun p => (p.1, 3 + p.2)) else none) with
  | some r => some r
  | none =>
    if beginsWith l ['w', 'e', 'e', 'k']
    then (wsDigits (l.drop 4)).map (fun p => (p.1, 4 + p.2)) else none

/-- Value of the last heading-pattern match (`matchAll` keeps every
non-overlapping match in order; the code takes the last one, lines 232-239).
Structurally recursive on a fuel argument so that it reduces in the kernel;
`hdAt` consumes at least one character on a match, so fuel equal to the input
length (as supplied by `lastWeekHeading`) never runs out. -/
def lastHdFuel : Nat → List Char → Option Nat → Option Nat
  | 0, _, acc => acc
  | _, [], acc => acc
  | fuel + 1, l@(_ :: t), acc =>
    match hdAt l with
    | some (v, len) => lastHdFuel fuel (t.drop (len - 1)) (some v)
    | none => lastHdFuel fuel t acc

/-- Numeric value of the last `uge <digits>` / `week <digits>` occurrence in
`pre` (case-insensitive), or `none` when there is none. -/
def lastWeekHeading (pre : List Char) : Option Nat :=
  lastHdFuel pre.length (lowerList pre) none

/-- Per-anchor body of the `$('a[href$=".pdf"]').each(...)` callback
(lines 204-242): skip anchors with a falsy `href` and anchors matching the
target day neither in text nor in `href`; take the week from the `href` when
the URL week-marker pattern matches; otherwise locate the anchor's serialized
markup in the body markup and take the last preceding week heading, or record
an unknown week when the markup is absent. -/
def processAnchor (bodyHtml dayName : String) (a : Anchor) : Option Candidate :=
  if a.href = "" then none
  else if ¬ (hasSub (jsLower a.text) (jsLower dayName) ||
             hasSub (jsLower a.href) (jsLower dayName)) then none
  else
    match urlWeekMatch a.href with
    | some w => some ⟨a.href, some (w : Int)⟩
    | none =>
      match jsIndexOfStr bodyHtml a.outer with
      | none => some ⟨a.href, none⟩
      | some pos =>
        some ⟨a.href, (lastWeekHeading (bodyHtml.toList.take pos)).map (fun n => (n : Int))⟩

/-- The candidate list accumulated by the `each` pass over the anchors the
selector `a[href$=".pdf"]` yields. -/
def candidatesOf (bodyHtml dayName : String) (anchors : List Anchor) : List Candidate :=
  (anchors.filter (fun a => endsWithStr a.href ".pdf")).filterMap
    (processAnchor bodyHtml dayName)

/-- Embedding of `findMenuPdfUrl` (lines 192-256) over the parsed page data:
first candidate whose week equals the target, else the single-unknown-
candidate fallback, else `null`. -/
def findMenuPdfUrl (bodyHtml : String) (anchors : List Anchor)
    (weekNumber : Int) (dayName : String) : Option String :=
  let candidates := candidatesOf bodyHtml dayName anchors
  match candidates.find? (fun c => c.weekNum == some weekNumber) with
  | some c => some c.href
  | none =>
    match candidates with
    | [c] => if c.weekNum = none then some c.href else none
    | _ => none

/-- Embedding of the use of `findMenuPdfUrl` in `main` (lines 338-342):
a `null` resolution throws the could-not-find error. -/
def resolveMenuPdf (bodyHtml : String) (anchors : List Anchor)
    (weekNumber : Int) (dayName : String) : Except String String :=
  match findMenuPdfUrl bodyHtml anchors weekNumber dayName with
  | some url => .ok url
  | none => .error ("Could not find PDF for " ++ dayName ++ " in week " ++ toString weekNumber)

/-! ## Specification-side definitions and concrete fixtures -/

/-- Modelled from the spec: a string that "denotes an integer" is exactly an
optional sign followed by one or more decimal digits, with no other
characters; used to state what the week-override validation would accept if
it required integer input. -/
def denotesInt (s : String) : Option Int :=
  match s.toList with
  | '-' :: t => if t ≠ [] ∧ t.all Char.isDigit then some (-(digitsVal t : Int)) else none
  | '+' :: t => if t ≠ [] ∧ t.all Char.isDigit then some ((digitsVal t : Int)) else none
  | t => if t ≠ [] ∧ t.all Char.isDigit then some ((digitsVal t : Int)) else none

/-- Anchor data cheerio produces for the first anchor of the positional-
inference example page. -/
def c1a1 : Anchor := ⟨"mon.pdf", "Mandag", "<a href=\"mon.pdf\">Mandag</a>"⟩

/-- Anchor data cheerio produces for the second anchor of the positional-
inference example page. -/
def c1a2 : Anchor := ⟨"mon2.pdf", "Mandag", "<a href=\"mon2.pdf\">Mandag</a>"⟩

/-- Serialized body markup of the positional-inference example page. -/
def c1body : String :=
  "<h2>Uge 2</h2><a href=\"mon.pdf\">Mandag</a><h2>Uge 3</h2><a href=\"mon2.pdf\">Mandag</a>"

/-- Anchor data for the direct-URL-week example (week marker inside the
href). -/
def c2anchor : Anchor :=
  ⟨"menu-uge3-mandag.pdf", "Mandag", "<a href=\"menu-uge3-mandag.pdf\">Mandag</a>"⟩

/-- Serialized body markup of the direct-URL-week example; its heading names
a different week than the href. -/
def c2body : String := "<h2>Uge 2</h2><a href=\"menu-uge3-mandag.pdf\">Mandag</a>"

/-- Anchor data for the single-candidate fallback example (no week marker
anywhere). -/
def c3anchor : Anchor :=
  ⟨"/files/menu-mandag.pdf", "Mandag", "<a href=\"/files/menu-mandag.pdf\">Mandag</a>"⟩

/-- Serialized body markup of the fallback example (no week context at
all). -/
def c3body : String := "<p>Menu</p><a href=\"/files/menu-mandag.pdf\">Mandag</a>"

/-! ## Supporting lemmas -/

theorem daysFromCivil_d (y m d e : Int) :
    daysFromCivil y m e = daysFromCivil y m d + (e - d) := by
  simp only [daysFromCivil]
  split_ifs <;> ring

theorem approxJan1 (y : Int) : (400 * (jan1 y + 719468)) / 146097 + 1 = y := by
  simp only [jan1, daysFromCivil]
  norm_num
  omega

theorem jan1_lt_next (y : Int) : jan1 y < jan1 (y + 1) := by
  simp only [jan1, daysFromCivil]
  norm_num
  omega

theorem yearOfDay_jan1 (y : Int) : yearOfDay (jan1 y) = y := by
  have h0 := approxJan1 y
  have h1 := jan1_lt_next y
  simp only [yearOfDay, h0]
  simp only [lt_irrefl, if_false]
  omega

set_option maxHeartbeats 1000000 in
theorem getWeekNumber_eq_formula (y m d : Int) :
    getWeekNumber y m d = isoWeekFormula y m d := by
  simp only [getWeekNumber, isoWeekFormula, isoThursday, firstThursdayOfYear,
    jsGetDay, ceilDiv, jan1]
  rw [daysFromCivil_d y m d (d - ((daysFromCivil y m d + 4) % 7 + 6) % 7 + 3)]
  have e1 : daysFromCivil y m d + (d - ((daysFromCivil y m d + 4) % 7 + 6) % 7 + 3 - d)
      = daysFromCivil y m d - ((daysFromCivil y m d + 4) % 7 + 6) % 7 + 3 := by ring
  rw [e1]
  set T := daysFromCivil y m d - ((daysFromCivil y m d + 4) % 7 + 6) % 7 + 3 with hT
  set j0 := daysFromCivil (yearOfDay T) 1 1 with hj0
  have hrt : yearOfDay j0 = yearOfDay T := by
    rw [hj0]; exact yearOfDay_jan1 (yearOfDay T)
  rw [hrt]
  rw [daysFromCivil_d (yearOfDay T) 1 1 (1 + ((4 - (j0 + 4) % 7 + 7) % 7))]
  rw [← hj0]
  split_ifs with hc <;> omega

theorem find?_weekday (L : String) (d : Weekday) :
    (WEEKDAYS.find? (fun e => e.danish == L || e.english == L) = some d) ↔
    d ∈ WEEKDAYS ∧ (d.danish = L ∨ d.english = L) := by
  constructor
  · intro h
    refine ⟨List.mem_of_find?_eq_some h, ?_⟩
    have hp := List.find?_some h
    simpa using hp
  · rintro ⟨hm, hname⟩
    have hm5 : d = ⟨"mandag", "monday"⟩ ∨ d = ⟨"tirsdag", "tuesday"⟩ ∨
        d = ⟨"onsdag", "wednesday"⟩ ∨ d = ⟨"torsdag", "thursday"⟩ ∨
        d = ⟨"fredag", "friday"⟩ := by
      simpa [WEEKDAYS] using hm
    rcases hm5 with rfl | rfl | rfl | rfl | rfl <;>
      rcases hname with h | h <;> simp at h <;> rw [← h] <;> decide

theorem jsIndexOfList_mem : ∀ (l : List String) (x : String) (i : Nat),
    jsIndexOfList l x = some i → l[i]? = some x := by
  intro l
  induction l with
  | nil => intro x i h; exact Option.noConfusion h
  | cons a t ih =>
    intro x i h
    by_cases ha : a = x
    · simp only [jsIndexOfList, if_pos ha] at h
      cases h
      simpa using ha
    · simp only [jsIndexOfList, if_neg ha, Option.map_eq_some'] at h
      obtain ⟨j, hj, rfl⟩ := h
      simpa using ih x j hj

theorem getArgValue_none (args : List String) : ∀ (flags : List String),
    (∀ g ∈ flags, ∀ i : Nat, args[i]? = some g → i + 1 = args.length) →
    getArgValue args flags = none := by
  intro flags
  induction flags with
  | nil => intro _; rfl
  | cons f rest ih =>
    intro h
    simp only [getArgValue]
    cases hidx : jsIndexOfList args f with
    | none => exact ih (fun g hg => h g (List.mem_cons_of_mem _ hg))
    | some i =>
      have hgi := jsIndexOfList_mem args f i hidx
      have hlen := h f (List.mem_cons_self _ _) i hgi
      show (if h : i + 1 < args.length then some (args.get ⟨i + 1, h⟩)
            else getArgValue args rest) = none
      rw [dif_neg (by omega)]
      exact ih (fun g hg => h g (List.mem_cons_of_mem _ hg))

/-! ## Claim theorems -/

/-- Claim C1 — positional inference: for every body markup, day name and
day-matching PDF anchor whose href carries no direct week marker, the
resolver locates the anchor's serialized markup in the body markup and takes
the numeric value of the last preceding case-insensitive "uge digits" or
"week digits" occurrence as the candidate's week; when the markup is not
found verbatim, the candidate is recorded with an unknown week rather than
failing; and on the two-heading example page with target week 3 the resolver
returns "mon2.pdf", not "mon.pdf". -/
theorem findMenuPdfUrl_positional_inference :
    (∀ (bodyHtml dayName : String) (a : Anchor) (pos : Nat),
       a.href ≠ "" →
       (hasSub (jsLower a.text) (jsLower dayName) ||
        hasSub (jsLower a.href) (jsLower dayName)) = true →
       urlWeekMatch a.href = none →
       jsIndexOfStr bodyHtml a.outer = some pos →
       processAnchor bodyHtml dayName a =
         some ⟨a.href, (lastWeekHeading (bodyHtml.toList.take pos)).map (fun n => (n : Int))⟩) ∧
    (∀ (bodyHtml dayName : String) (a : Anchor),
       a.href ≠ "" →
       (hasSub (jsLower a.text) (jsLower dayName) ||
        hasSub (jsLower a.href) (jsLower dayName)) = true →
       urlWeekMatch a.href = none →
       jsIndexOfStr bodyHtml a.outer = none →
       processAnchor bodyHtml dayName a = some ⟨a.href, none⟩) ∧
    findMenuPdfUrl c1body [c1a1, c1a2] 3 "mandag" = some "mon2.pdf" := by
  refine ⟨?_, ?_, by rfl⟩
  · intro bodyHtml dayName a pos hne hday hurl hpos
    simp only [processAnchor, if_neg hne, hday, hurl, hpos]
    simp
  · intro bodyHtml dayName a hne hday hurl hpos
    simp only [processAnchor, if_neg hne, hday, hurl, hpos]
    simp

/-- Witness for C1: the first anchor of the example page sits at character
position 14 of the body markup, and the last heading before it names week 2. -/
theorem findMenuPdfUrl_positional_inference_witness :
    processAnchor c1body "mandag" c1a1 = some ⟨"mon.pdf", some 2⟩ := by
  have h := findMenuPdfUrl_positional_inference.1 c1body "mandag" c1a1 14
    (by decide) (by decide) (by decide) (by decide)
  rw [h]
  rfl

/-- Claim C2 — direct URL week extraction: for every day-matching PDF anchor
whose href matches the week-marker pattern (token "uge", "week" or "w",
optional underscore/hyphen/space separator, digits, case-insensitive), the
candidate's week is the number parsed from the href, independently of the
body markup (no positional inference); and on the example page the anchor
"menu-uge3-mandag.pdf" resolves for target week 3 although the heading names
week 2. -/
theorem findMenuPdfUrl_direct_url_week :
    (∀ (bodyHtml dayName : String) (a : Anchor) (w : Nat),
       (hasSub (jsLower a.text) (jsLower dayName) ||
        hasSub (jsLower a.href) (jsLower dayName)) = true →
       urlWeekMatch a.href = some w →
       processAnchor bodyHtml dayName a = some ⟨a.href, some (w : Int)⟩) ∧
    findMenuPdfUrl c2body [c2anchor] 3 "mandag" = some "menu-uge3-mandag.pdf" := by
  constructor
  · intro bodyHtml dayName a w hday hurl
    have hne : a.href ≠ "" := by
      intro he
      rw [he, show urlWeekMatch "" = none from rfl] at hurl
      exact Option.noConfusion hurl
    simp only [processAnchor, if_neg hne, hday, not_true, if_neg, hurl]
    simp
  · rfl

/-- Witness for C2: the candidate built for the example anchor carries week 3
taken from its href, for a body markup whose heading names week 9. -/
theorem findMenuPdfUrl_direct_url_week_witness :
    processAnchor "<h2>Uge 9</h2>" "mandag" c2anchor =
      some ⟨"menu-uge3-mandag.pdf", some 3⟩ :=
  findMenuPdfUrl_direct_url_week.1 "<h2>Uge 9</h2>" "mandag" c2anchor 3
    (by decide) (by decide)

/-- Claim C3 — no-match handling: whenever no candidate's week equals the
target week, the resolution returns the single candidate's href if exactly
one candidate exists and its week is unknown, and otherwise fails with the
could-not-find error; concretely, the one-unweeked-anchor page resolves for
any requested week, and the two-anchor page for week 7 produces the error. -/
theorem findMenuPdfUrl_no_week_match :
    (∀ (bodyHtml dayName : String) (anchors : List Anchor) (week : Int),
       (∀ c ∈ candidatesOf bodyHtml dayName anchors, c.weekNum ≠ some week) →
       ((∀ c : Candidate, candidatesOf bodyHtml dayName anchors = [c] → c.weekNum = none →
           resolveMenuPdf bodyHtml anchors week dayName = .ok c.href) ∧
        ((¬ ∃ c : Candidate, candidatesOf bodyHtml dayName anchors = [c] ∧ c.weekNum = none) →
           resolveMenuPdf bodyHtml anchors week dayName =
             .error ("Could not find PDF for " ++ dayName ++ " in week " ++ toString week)))) ∧
    resolveMenuPdf c3body [c3anchor] 5 "mandag" = .ok "/files/menu-mandag.pdf" ∧
    resolveMenuPdf c1body [c1a1, c1a2] 7 "mandag" =
      .error "Could not find PDF for mandag in week 7" := by
  refine ⟨?_, by rfl, by rfl⟩
  intro bodyHtml dayName anchors week h
  have hfind : (candidatesOf bodyHtml dayName anchors).find?
      (fun c => c.weekNum == some week) = none := by
    rw [List.find?_eq_none]
    intro x hx
    simpa using h x hx
  constructor
  · intro c hc hw
    simp only [resolveMenuPdf, findMenuPdfUrl, hfind, hc, hw]
    simp [hw]
  · intro hne
    simp only [resolveMenuPdf, findMenuPdfUrl, hfind]
    cases hcs : candidatesOf bodyHtml dayName anchors with
    | nil => simp
    | cons c t =>
      cases t with
      | nil =>
        have hw : ¬ c.weekNum = none := fun hn => hne ⟨c, hcs, hn⟩
        simp [hw]
      | cons c2 t2 => simp

/-- Witness for C3: the fallback example page holds exactly one candidate,
with unknown week, and resolution for week 5 returns its href. -/
theorem findMenuPdfUrl_no_week_match_witness :
    resolveMenuPdf c3body [c3anchor] 5 "mandag" = .ok "/files/menu-mandag.pdf" :=
  (findMenuPdfUrl_no_week_match.1 c3body "mandag" [c3anchor] 5 (by decide)).1
    ⟨"/files/menu-mandag.pdf", none⟩ (by rfl) (by rfl)

/-- Claim C4 — ISO week number: for every civil date, the function equals
1 + floor((targetThursday − yearFirstThursday) / 7 days) with the Thursday of
the date's ISO week and the first Thursday of that Thursday's year (the
ISO-8601 definition); in particular it yields 1 for 2024-01-01 and 1 (week 1
of 2025) for 2024-12-30. -/
theorem getWeekNumber_iso :
    (∀ y m d : Int, getWeekNumber y m d = isoWeekFormula y m d) ∧
    getWeekNumber 2024 1 1 = 1 ∧ getWeekNumber 2024 12 30 = 1 :=
  ⟨getWeekNumber_eq_formula, by decide, by decide⟩

/-- Counterexample to claim C5 as stated: the string "3.5" does not denote an
integer, so by the claim the program should fail with an invalid-week error,
yet the week override "3.5" is accepted as week 3, because `parseInt`
converts the maximal leading digit run and ignores the rest. -/
theorem resolveWeek_nonint_counterexample :
    denotesInt "3.5" = none ∧ jsParseInt "3.5" = some 3 ∧
    resolveWeek (some "3.5") 7 = .ok 3 :=
  ⟨by decide, by decide, by rfl⟩

/-- Claim C5 as amended — week override validation: a non-empty week override
is parsed with `parseInt` semantics (leading whitespace, optional sign,
maximal leading digit run, trailing characters ignored); a parse result in
[1, 53] is accepted (boundaries 1 and 53 included), while an unparsable
override or a value outside [1, 53] fails with the invalid-week error naming
the offending input; an empty-string override is JavaScript-falsy and is
treated as absent. -/
theorem resolveWeek_parseint_spec :
    (∀ (s : String) (cur n : Int), s ≠ "" → jsParseInt s = some n → 1 ≤ n → n ≤ 53 →
        resolveWeek (some s) cur = .ok n) ∧
    (∀ (s : String) (cur : Int), s ≠ "" → jsParseInt s = none →
        resolveWeek (some s) cur =
          .error ("Invalid week number: " ++ s ++ ". Must be between 1 and 53.")) ∧
    (∀ (s : String) (cur n : Int), jsParseInt s = some n → (n < 1 ∨ 53 < n) →
        resolveWeek (some s) cur =
          .error ("Invalid week number: " ++ s ++ ". Must be between 1 and 53.")) ∧
    resolveWeek (some "1") 7 = .ok 1 ∧ resolveWeek (some "53") 7 = .ok 53 ∧
    resolveWeek (some "0") 7 = .error "Invalid week number: 0. Must be between 1 and 53." ∧
    resolveWeek (some "54") 7 = .error "Invalid week number: 54. Must be between 1 and 53." ∧
    resolveWeek (some "abc") 7 = .error "Invalid week number: abc. Must be between 1 and 53." ∧
    (∀ cur : Int, resolveWeek (some "") cur = .ok cur) := by
  refine ⟨?_, ?_, ?_, by rfl, by rfl, by rfl, by rfl, by rfl, fun cur => rfl⟩
  · intro s cur n hne hp h1 h53
    simp only [resolveWeek, if_neg hne]
    rw [hp]
    simp only [if_neg (by omega : ¬ (n < 1 ∨ n > 53))]
  · intro s cur hne hp
    simp only [resolveWeek, if_neg hne]
    rw [hp]
  · intro s cur n hp hrange
    have hne : s ≠ "" := by
      intro he
      rw [he, show jsParseInt "" = none from rfl] at hp
      exact Option.noConfusion hp
    simp only [resolveWeek, if_neg hne]
    rw [hp]
    simp only [if_pos (by omega : (n < 1 ∨ n > 53))]

/-- Witness for C5 (amended): the override "7" parses to 7, lies in range and
is accepted. -/
theorem resolveWeek_parseint_spec_witness :
    resolveWeek (some "7") 1 = .ok 7 :=
  resolveWeek_parseint_spec.1 "7" 1 7 (by decide) (by decide) (by decide) (by decide)

/-- Claim C6 — day lookup: an input resolves to precisely the table entry
whose Danish name or English identifier equals its lowercase form; "mandag"
and "monday" both give the Monday entry, "lørdag" gives no match, and a
non-empty unmatched day override fails with the invalid-day error listing
all valid names. -/
theorem getDayByName_lookup :
    (∀ (s : String) (d : Weekday), getDayByName s = some d ↔
       d ∈ WEEKDAYS ∧ (d.danish = jsLower s ∨ d.english = jsLower s)) ∧
    getDayByName "mandag" = some ⟨"mandag", "monday"⟩ ∧
    getDayByName "monday" = some ⟨"mandag", "monday"⟩ ∧
    getDayByName "lørdag" = none ∧
    validDaysStr = "mandag/monday, tirsdag/tuesday, onsdag/wednesday, torsdag/thursday, fredag/friday" ∧
    (∀ (s : String) (dayIndex : Fin 7), getDayByName s = none → s ≠ "" →
       resolveDay (some s) dayIndex =
         .error ("Invalid day: " ++ s ++ ". Valid days: " ++ validDaysStr)) := by
  refine ⟨fun s d => find?_weekday (jsLower s) d, by decide, by decide, by decide, by decide, ?_⟩
  intro s dayIndex hnone hne
  simp only [resolveDay, if_neg hne]
  rw [hnone]

/-- Witness for C6: the unmatched override "lørdag" produces the invalid-day
error listing every valid name. -/
theorem getDayByName_lookup_witness :
    resolveDay (some "lørdag") (2 : Fin 7) =
      .error "Invalid day: lørdag. Valid days: mandag/monday, tirsdag/tuesday, onsdag/wednesday, torsdag/thursday, fredag/friday" := by
  have h := getDayByName_lookup.2.2.2.2.2 "lørdag" (2 : Fin 7) (by decide) (by decide)
  rw [h]
  rfl

/-- Claim C7 — weekend defaulting and override precedence: with no (or an
empty, hence falsy) day override, a Saturday or Sunday run fails with the
no-menu-available error; with a valid day override the override alone
determines the weekday and the weekend check never triggers, whatever the
current day of week is. -/
theorem weekend_and_day_override :
    (∀ (dayIndex : Fin 7), (dayIndex.val = 0 ∨ dayIndex.val = 6) →
       ∀ (dayArg : Option String), (dayArg = none ∨ dayArg = some "") →
         resolveDay dayArg dayIndex = .error "No menu available on weekends") ∧
    (∀ (dayIndex : Fin 7) (s : String) (d : Weekday), getDayByName s = some d →
       resolveDay (some s) dayIndex = .ok d) := by
  constructor
  · intro dayIndex hw dayArg harg
    rcases harg with rfl | rfl <;>
      simp [resolveDay, getCurrentDay, hw]
  · intro dayIndex s d h
    have hne : s ≠ "" := by
      intro he
      rw [he, show getDayByName "" = none from rfl] at h
      exact Option.noConfusion h
    simp only [resolveDay, if_neg hne]
    rw [h]

/-- Witness for C7: a Sunday run without override fails, and a "friday"
override on that same Sunday succeeds. -/
theorem weekend_and_day_override_witness :
    resolveDay none (0 : Fin 7) = .error "No menu available on weekends" ∧
    resolveDay (some "friday") (0 : Fin 7) = .ok ⟨"fredag", "friday"⟩ :=
  ⟨weekend_and_day_override.1 (0 : Fin 7) (by decide) none (Or.inl rfl),
   weekend_and_day_override.2 (0 : Fin 7) "friday" ⟨"fredag", "friday"⟩ (by decide)⟩

/-- Claim C8 — page-number strip: the transform removes every occurrence of
"two hyphens, optional whitespace, digits, whitespace, 'of', whitespace,
digits, optional whitespace, two hyphens" and then trims surrounding
whitespace from the whole result; exercised on the spec's example and on
variants with and without the optional whitespace, with several occurrences,
and with a non-matching near-miss that only gets trimmed. -/
theorem removePageNumbers_strip :
    (∀ s : String,
       removePageNumbers s = jsTrim (String.mk (stripMatches matchPageNum s.toList))) ∧
    removePageNumbers "Soup\n-- 2 of 2 --\nSalad" = "Soup\n\nSalad" ∧
    removePageNumbers "--1 of 2--" = "" ∧
    removePageNumbers "a --  12 of 34  -- b -- 1 of 9 --" = "a  b" ∧
    removePageNumbers "  x -- 1of 2 --  " = "x -- 1of 2 --" :=
  ⟨fun _ => rfl, by decide, by decide, by decide, by decide⟩

/-- Claim C9 — allergen strip: the transform removes every occurrence of
"optional whitespace, an opening parenthesis, one or more characters from
digits/comma/T/K/M/N/whitespace, a closing parenthesis", and it runs only
when the no-allergies option is requested; exercised on the spec's example,
on multiple markers, on the accepted over-match of plain numeric
parentheses, and on parentheses outside the class, which stay untouched. -/
theorem removeAllergyInfo_strip :
    (∀ raw : String, normalizeMenuText raw true = removeAllergyInfo (removePageNumbers raw)) ∧
    (∀ raw : String, normalizeMenuText raw false = removePageNumbers raw) ∧
    removeAllergyInfo "Chicken (3,7,12,T) with rice" = "Chicken with rice" ∧
    removeAllergyInfo "Pasta (1,12) and bread (K)" = "Pasta and bread" ∧
    removeAllergyInfo "Note (17)" = "Note" ∧
    removeAllergyInfo "f(x) with (a)" = "f(x) with (a)" :=
  ⟨fun _ => rfl, fun _ => rfl, by decide, by decide, by decide, by decide⟩

/-- Claim C10 — trailing value flag: when a value-taking flag (week or day)
occurs in the argument list only as the final element, the lookup yields
null for it, so the run silently keeps the current-date default (current
week, current weekday) instead of raising a validation error. -/
theorem getArgValue_trailing_flag :
    (∀ (args : List String) (cur : Int),
       (∃ f ∈ ["--week", "-w"], args.getLast? = some f) →
       (∀ g ∈ ["--week", "-w"], ∀ i : Nat, args[i]? = some g → i + 1 = args.length) →
       getArgValue args ["--week", "-w"] = none ∧
       resolveWeek (getArgValue args ["--week", "-w"]) cur = .ok cur) ∧
    (∀ (args : List String) (dayIndex : Fin 7),
       (∃ f ∈ ["--day", "-d"], args.getLast? = some f) →
       (∀ g ∈ ["--day", "-d"], ∀ i : Nat, args[i]? = some g → i + 1 = args.length) →
       getArgValue args ["--day", "-d"] = none ∧
       resolveDay (getArgValue args ["--day", "-d"]) dayIndex = getCurrentDay dayIndex) := by
  constructor
  · intro args cur _ honly
    have hn := getArgValue_none args ["--week", "-w"] honly
    exact ⟨hn, by rw [hn]; rfl⟩
  · intro args dayIndex _ honly
    have hn := getArgValue_none args ["--day", "-d"] honly
    exact ⟨hn, by rw [hn]; rfl⟩

/-- Witness for C10: with argument list ["--no-allergies", "-w"] the week
flag is last, the lookup yields null and the current week 7 is kept. -/
theorem getArgValue_trailing_flag_witness :
    getArgValue ["--no-allergies", "-w"] ["--week", "-w"] = none ∧
    resolveWeek (getArgValue ["--no-allergies", "-w"] ["--week", "-w"]) 7 = .ok 7 := by
  refine getArgValue_trailing_flag.1 ["--no-allergies", "-w"] 7 ⟨"-w", by decide, by rfl⟩ ?_
  intro g hg i hi
  rcases i with _ | _ | n
  · simp only [List.getElem?_cons_zero] at hi
    cases hi
    simp at hg
  · simp only [List.getElem?_cons_succ, List.getElem?_cons_zero] at hi
    rfl
  · simp at hi
